import Mathlib

/-!
Shallow embedding of the scheduling core of `src/app/page.tsx` (SchedulerV3).

The source is a single TypeScript file whose algorithmic core is the
function `buildSchedule` (lines 68-135) together with its inner helper
`canAssignTeacher` (lines 87-96) and the module-level catalog constants
`DAYS`, `PERIODS`, `SUBJECTS`, `TEACHERS`, `CLASSES` (lines 29-43).

Modelling decisions:
* The JavaScript nested objects keyed by class / day / period are one
  key-value store: `FullSchedule` is a write log (newest write first) and
  `getSlot` returns the most recent write for a key, so a later
  `newSchedule[cls][day][period] = v` shadows an earlier one exactly as
  object assignment overwrites.  A key never written reads as `none`
  (JS `undefined`), a written key as `some v`.  A JS object holds at most
  one value per key, so "exactly one entry" is expressed as the lookup
  being `some _`.
* The slot values (`ScheduleSlot` object, or the strings `Recess`,
  `Lunch`, `Free`) become the inductive `SlotVal`.
* `[...SUBJECTS].sort(() => Math.random() - 0.5)` is a sort of the
  subject catalog under a comparator whose outcomes are random (with an
  inconsistent comparator the resulting order is implementation-defined:
  some rearrangement of the array).  It is modelled as a comparator-driven
  sort (`sortBy`) applied to an arbitrary comparator drawn, per
  (class, day), from an oracle parameter `cmp`; every theorem about
  `buildSchedule` quantifies over all oracles, and the theorems that
  matter only use that the result is a permutation of the input.
* The `while (!assigned && attempts < dailySubjects.length)` loop is
  `tryCandidates`, structurally recursive on the remaining attempt budget
  (`rot.length - attempts`); the `for (const teacher of ...)` loop with
  early `break` is `List.find?`.
* The mutation of `newSchedule` is explicit state passing: `setSlot` is a
  pointwise functional update, and the three nested `forEach` loops are
  `List.foldl`.
* The source never throws: `TEACHERS` is modelled as a total function
  from subject names to teacher lists (a TS `Record`), defaulting to `[]`
  off the catalog, and the generalised `Catalog` structure keeps that
  shape so that claims quantifying over catalog contents can be stated.
-/

namespace SchedulerV3

abbrev Subject := String
abbrev Teacher := String
abbrev ClassName := String
abbrev Day := String

/-- A key of a `DaySchedule` object: the teaching-period numeric keys and
the two break string keys (`PERIODS = [1, 2, 'Recess', 3, 4, 'Lunch', 5, 6]`). -/
inductive PeriodKey where
  | p (n : Nat)
  | recessK
  | lunchK
deriving DecidableEq

/-- A stored slot value: a `ScheduleSlot` object `{subject, teacher}`, or one
of the marker strings `'Recess'`, `'Lunch'`, `'Free'`. -/
inductive SlotVal where
  | slot (subject : Subject) (teacher : Teacher)
  | recessMark
  | lunchMark
  | freeMark
deriving DecidableEq

/-- A full key of the nested schedule object: (class, day, period key). -/
abbrev SlotKey := ClassName × Day × PeriodKey

/-- `FullSchedule` : nested-object state as a write log, newest first. -/
def FullSchedule := List (SlotKey × SlotVal)

-- Catalog constants, from src/app/page.tsx lines 29-43.
def DAYS : List Day := ["Monday", "Tuesday", "Wednesday", "Thursday", "Friday"]

def PERIODS : List PeriodKey :=
  [.p 1, .p 2, .recessK, .p 3, .p 4, .lunchK, .p 5, .p 6]

def SUBJECTS : List Subject := ["Math", "Science", "English", "History", "Art", "PE"]

def TEACHERS : Subject → List Teacher
  | "Math" => ["Mr. Smith", "Ms. Davis"]
  | "Science" => ["Dr. Jones", "Mr. Wilson"]
  | "English" => ["Ms. Taylor", "Mr. Brown"]
  | "History" => ["Mrs. White", "Mr. Green"]
  | "Art" => ["Ms. Black"]
  | "PE" => ["Coach Carter"]
  | _ => []

def CLASSES : List ClassName := ["Grade 10-A", "Grade 10-B", "Grade 11-A"]

/-- The catalog fields the algorithm reads (the spec's recognized
configuration structure, §6); `CATALOG` below packages the source constants. -/
structure Catalog where
  classes : List ClassName
  days : List Day
  subjects : List Subject
  teachers : Subject → List Teacher

def CATALOG : Catalog := ⟨CLASSES, DAYS, SUBJECTS, TEACHERS⟩

/-- `const newSchedule: FullSchedule = {}` — every lookup is `undefined`. -/
def emptySchedule : FullSchedule := []

/-- `newSchedule[c][d][k] = v`: record the write; it shadows older ones. -/
def setSlot (s : FullSchedule) (c : ClassName) (d : Day) (k : PeriodKey)
    (v : SlotVal) : FullSchedule :=
  ((c, d, k), v) :: s

/-- `newSchedule[c][d][k]` : the most recent write to that key, if any. -/
def getSlot (s : FullSchedule) (c : ClassName) (d : Day) (k : PeriodKey) :
    Option SlotVal :=
  (s.find? (fun e => decide (e.1 = (c, d, k)))).map (fun e => e.2)

/-- Value written by the initialization loop at each period key
(lines 76-82): breaks get their own marker, teaching periods get `'Free'`. -/
def initVal : PeriodKey → SlotVal
  | .p _ => .freeMark
  | .recessK => .recessMark
  | .lunchK => .lunchMark

/-- The initialization loops of `buildSchedule`, lines 72-84. -/
def initSchedule (cat : Catalog) : FullSchedule :=
  cat.classes.foldl (fun s cls =>
    cat.days.foldl (fun s day =>
      PERIODS.foldl (fun s k => setSlot s cls day k (initVal k)) s) s)
    emptySchedule

/-- `canAssignTeacher` (lines 87-96): false iff some class's slot at
`(day, period)` is a `ScheduleSlot` object whose `teacher` matches. -/
def canAssignTeacher (cat : Catalog) (s : FullSchedule) (teacher : Teacher)
    (day : Day) (period : Nat) : Bool :=
  cat.classes.all fun c =>
    match getSlot s c day (.p period) with
    | some (.slot _ t) => t != teacher
    | _ => true

/-- The `for (const teacher of availableTeachers)` loop (lines 114-120):
the first teacher of `subj`'s catalog list that the availability check
accepts, if any (`List.find?` models the loop with its early `break`). -/
def firstFreeTeacher (cat : Catalog) (s : FullSchedule) (day : Day)
    (period : Nat) (subj : Subject) : Option Teacher :=
  (cat.teachers subj).find? (fun t => canAssignTeacher cat s t day period)

/-- The `while (!assigned && attempts < dailySubjects.length)` loop
(lines 109-122), recursing on the remaining budget `rot.length - attempts`.
The loop performs no writes before success, so the schedule argument is
constant across iterations, as in the source. -/
def tryCandidates (cat : Catalog) (s : FullSchedule) (day : Day) (period : Nat)
    (rot : List Subject) (subjectIndex : Nat) :
    Nat → Nat → Option (Subject × Teacher)
  | _, 0 => none
  | attempts, fuel + 1 =>
    let subject := rot.getD ((subjectIndex + attempts) % rot.length) ""
    match firstFreeTeacher cat s day period subject with
    | some t => some (subject, t)
    | none => tryCandidates cat s day period rot subjectIndex (attempts + 1) fuel

/-- One slot decision: the whole retry loop started at `attempts = 0`. -/
def assignSlot (cat : Catalog) (s : FullSchedule) (day : Day) (period : Nat)
    (rot : List Subject) (subjectIndex : Nat) : Option (Subject × Teacher) :=
  tryCandidates cat s day period rot subjectIndex 0 rot.length

/-- `[1, 2, 3, 4, 5, 6].forEach(period => ...)`, line 105. -/
def teachingPeriods : List Nat := [1, 2, 3, 4, 5, 6]

/-- The body of the per-period loop (lines 105-130): run the retry loop;
on success write the `{subject, teacher}` object and advance `subjectIndex`;
otherwise write `'Free'` and leave `subjectIndex` unchanged. -/
def stepPeriod (cat : Catalog) (cls : ClassName) (day : Day)
    (rot : List Subject) : FullSchedule × Nat → Nat → FullSchedule × Nat
  | (s, subjectIndex), period =>
    match assignSlot cat s day period rot subjectIndex with
    | some (subject, teacher) =>
        (setSlot s cls day (.p period) (.slot subject teacher), subjectIndex + 1)
    | none => (setSlot s cls day (.p period) .freeMark, subjectIndex)

/-- One (class, day) pass: `let subjectIndex = 0` then the period loop. -/
def processDay (cat : Catalog) (rot : List Subject) (s : FullSchedule)
    (cls : ClassName) (day : Day) : FullSchedule :=
  (teachingPeriods.foldl (stepPeriod cat cls day rot) (s, 0)).1

/-- `buildSchedule` (lines 68-135) over an arbitrary catalog, with the
per-(class, day) shuffle outcomes supplied by the oracle `rot`. -/
def buildScheduleC (cat : Catalog) (rot : ClassName → Day → List Subject) :
    FullSchedule :=
  cat.classes.foldl (fun s cls =>
    cat.days.foldl (fun s day => processDay cat (rot cls day) s cls day) s)
    (initSchedule cat)

/-- Insert `x` into `l` before the first element `y` with `le x y = true`. -/
def insertBy (le : Subject → Subject → Bool) (x : Subject) :
    List Subject → List Subject
  | [] => [x]
  | y :: ys => if le x y then x :: y :: ys else y :: insertBy le x ys

/-- Comparator-driven sort: the model of `Array.prototype.sort(cmp)`. -/
def sortBy (le : Subject → Subject → Bool) : List Subject → List Subject
  | [] => []
  | x :: xs => insertBy le x (sortBy le xs)

/-- `[...SUBJECTS].sort(() => Math.random() - 0.5)` for one (class, day):
a sort of the subject catalog under that pair's comparator oracle. -/
def rotationFor (cmp : ClassName → Day → Subject → Subject → Bool)
    (cls : ClassName) (day : Day) : List Subject :=
  sortBy (cmp cls day) CATALOG.subjects

/-- The source `buildSchedule`, closed over the module constants; `cmp` is
the random-comparator oracle, one comparator per (class, day) shuffle. -/
def buildSchedule (cmp : ClassName → Day → Subject → Subject → Bool) :
    FullSchedule :=
  buildScheduleC CATALOG (rotationFor cmp)

/-! ### Properties and auxiliary configurations -/

/-- The spec's global hard constraint (§3): at any day and teaching period,
two distinct catalog classes never name the same teacher. -/
def NoDoubleBooking (cat : Catalog) (s : FullSchedule) : Prop :=
  ∀ c1 ∈ cat.classes, ∀ c2 ∈ cat.classes, c1 ≠ c2 →
    ∀ d p a1 t1 a2 t2, getSlot s c1 d (.p p) = some (.slot a1 t1) →
      getSlot s c2 d (.p p) = some (.slot a2 t2) → t1 ≠ t2

/-- Over-approximation of the schedule states that occur while
`buildScheduleC` runs: the fully initialized grid, and anything obtainable
from it by per-period steps (with any class, day, rotation, counter, or
period, which covers the steps the builder actually takes in order). -/
inductive Reached (cat : Catalog) : FullSchedule → Prop where
  | init : Reached cat (initSchedule cat)
  | step (s : FullSchedule) (cls : ClassName) (day : Day) (rot : List Subject)
      (subjectIndex period : Nat) (h : Reached cat s) :
      Reached cat (stepPeriod cat cls day rot (s, subjectIndex) period).1

/-- A malformed catalog: subject `"Math"` has an empty teacher list
(the spec's §8 configuration-error scenario). -/
def badCatalog : Catalog := ⟨["Class A"], ["Monday"], ["Math"], fun _ => []⟩

/-- The spec's §8 two-subject scenario catalog, used as a small concrete
input for witnesses. -/
def miniCatalog : Catalog :=
  ⟨["A"], ["Mon"], ["Math", "Science"],
    fun sub => if sub = "Math" then ["T1"]
      else if sub = "Science" then ["T2"] else []⟩

/-- Grid completeness (§8): every in-grid cell is present; break keys hold
their marker, teaching keys hold `Free` or an assignment. -/
def GridInv (cat : Catalog) (s : FullSchedule) : Prop :=
  ∀ c ∈ cat.classes, ∀ d ∈ cat.days,
    getSlot s c d .recessK = some .recessMark ∧
    getSlot s c d .lunchK = some .lunchMark ∧
    ∀ n, PeriodKey.p n ∈ PERIODS →
      getSlot s c d (.p n) = some .freeMark ∨
      ∃ a t, getSlot s c d (.p n) = some (.slot a t)

/-- Every assignment's teacher is drawn from its subject's catalog list. -/
def AssignTeacherValid (cat : Catalog) (s : FullSchedule) : Prop :=
  ∀ c d n a t, getSlot s c d (.p n) = some (.slot a t) → t ∈ cat.teachers a

/-- Every assignment's subject is a member of the subject catalog. -/
def AssignSubjectValid (cat : Catalog) (s : FullSchedule) : Prop :=
  ∀ c d n a t, getSlot s c d (.p n) = some (.slot a t) → a ∈ cat.subjects

/-- All six teaching slots of `(cls, day)` still hold the initial `Free`. -/
def dayUntouched (s : FullSchedule) (cls : ClassName) (day : Day) : Prop :=
  ∀ n ∈ teachingPeriods, getSlot s cls day (.p n) = some .freeMark

/-- All six teaching slots of `(cls, day)` hold assignments. -/
def dayComplete (s : FullSchedule) (cls : ClassName) (day : Day) : Prop :=
  ∀ n ∈ teachingPeriods, ∃ a t, getSlot s cls day (.p n) = some (.slot a t)

-- Sanity checks evaluating the embedding on concrete input.
example : TEACHERS "Art" = ["Ms. Black"] := rfl
example : CATALOG.classes.length = 3 := rfl
example : PERIODS.length = 8 := rfl

/-! ### Basic lookup lemmas -/

@[simp]
theorem getSlot_empty (c : ClassName) (d : Day) (k : PeriodKey) :
    getSlot emptySchedule c d k = none := rfl

theorem getSlot_setSlot (s : FullSchedule) (c : ClassName) (d : Day)
    (k : PeriodKey) (v : SlotVal) (c' : ClassName) (d' : Day) (k' : PeriodKey) :
    getSlot (setSlot s c d k v) c' d' k' =
      if (c, d, k) = (c', d', k') then some v else getSlot s c' d' k' := by
  unfold getSlot setSlot
  rw [List.find?_cons]
  by_cases h : (c, d, k) = (c', d', k') <;> simp [h]

@[simp]
theorem getSlot_setSlot_same (s : FullSchedule) (c : ClassName) (d : Day)
    (k : PeriodKey) (v : SlotVal) :
    getSlot (setSlot s c d k v) c d k = some v := by
  simp [getSlot_setSlot]

theorem getSlot_setSlot_ne (s : FullSchedule) (c : ClassName) (d : Day)
    (k : PeriodKey) (v : SlotVal) {c' : ClassName} {d' : Day} {k' : PeriodKey}
    (h : (c, d, k) ≠ (c', d', k')) :
    getSlot (setSlot s c d k v) c' d' k' = getSlot s c' d' k' := by
  simp [getSlot_setSlot, h]

/-! ### Availability tracker (`canAssignTeacher`) -/

/-- Booleans to propositions: `canAssignTeacher` is `true` exactly when no
catalog class's slot at `(day, period)` is an assignment naming `t`. -/
theorem canAssignTeacher_eq_true_iff (cat : Catalog) (s : FullSchedule)
    (t : Teacher) (d : Day) (p : Nat) :
    canAssignTeacher cat s t d p = true ↔
      ∀ c ∈ cat.classes, ∀ a t', getSlot s c d (.p p) = some (.slot a t') →
        t' ≠ t := by
  unfold canAssignTeacher
  rw [List.all_eq_true]
  constructor
  · intro h c hc a t' hslot
    have := h c hc
    rw [hslot] at this
    simpa using this
  · intro h c hc
    cases hv : getSlot s c d (.p p) with
    | none => simp [hv]
    | some v =>
      cases v with
      | slot a t' => simpa [hv] using h c hc a t' hv
      | recessMark => simp [hv]
      | lunchMark => simp [hv]
      | freeMark => simp [hv]

theorem canAssignTeacher_eq_false_iff (cat : Catalog) (s : FullSchedule)
    (t : Teacher) (d : Day) (p : Nat) :
    canAssignTeacher cat s t d p = false ↔
      ∃ c ∈ cat.classes, ∃ a, getSlot s c d (.p p) = some (.slot a t) := by
  rw [← Bool.not_eq_true, canAssignTeacher_eq_true_iff]
  push_neg
  constructor
  · rintro ⟨c, hc, a, t', hslot, ht⟩
    exact ⟨c, hc, a, ht ▸ hslot⟩
  · rintro ⟨c, hc, a, hslot⟩
    exact ⟨c, hc, a, t, hslot, rfl⟩

/-! ### Slot assigner (`tryCandidates` / `assignSlot`) -/

theorem tryCandidates_eq_none_iff (cat : Catalog) (s : FullSchedule) (d : Day)
    (p : Nat) (rot : List Subject) (i : Nat) :
    ∀ fuel a, tryCandidates cat s d p rot i a fuel = none ↔
      ∀ k < fuel,
        firstFreeTeacher cat s d p (rot.getD ((i + (a + k)) % rot.length) "")
          = none := by
  intro fuel
  induction fuel with
  | zero => intro a; simp [tryCandidates]
  | succ f ih =>
    intro a
    rw [tryCandidates]
    cases hf : firstFreeTeacher cat s d p
        (rot.getD ((i + a) % rot.length) "") with
    | some t =>
      simp only [hf]
      constructor
      · intro h; cases h
      · intro h
        have h0 := h 0 (Nat.succ_pos f)
        rw [Nat.add_zero] at h0
        rw [h0] at hf
        cases hf
    | none =>
      simp only [hf, ih (a + 1)]
      constructor
      · intro h k hk
        cases k with
        | zero => simpa using hf
        | succ k' =>
          have := h k' (by omega)
          have harith : i + (a + 1 + k') = i + (a + (k' + 1)) := by omega
          rw [harith] at this
          exact this
      · intro h k hk
        have := h (k + 1) (by omega)
        have harith : i + (a + (k + 1)) = i + (a + 1 + k) := by omega
        rw [harith] at this
        exact this

theorem tryCandidates_eq_some_iff (cat : Catalog) (s : FullSchedule) (d : Day)
    (p : Nat) (rot : List Subject) (i : Nat) (subj : Subject) (t : Teacher) :
    ∀ fuel a, tryCandidates cat s d p rot i a fuel = some (subj, t) ↔
      ∃ k < fuel,
        subj = rot.getD ((i + (a + k)) % rot.length) "" ∧
        firstFreeTeacher cat s d p subj = some t ∧
        ∀ j < k,
          firstFreeTeacher cat s d p (rot.getD ((i + (a + j)) % rot.length) "")
            = none := by
  intro fuel
  induction fuel with
  | zero => intro a; simp [tryCandidates]
  | succ f ih =>
    intro a
    rw [tryCandidates]
    cases hf : firstFreeTeacher cat s d p
        (rot.getD ((i + a) % rot.length) "") with
    | some t0 =>
      simp only [hf, Option.some.injEq]
      constructor
      · intro h
        rw [Prod.ext_iff] at h
        obtain ⟨h1, h2⟩ := h
        subst h1; subst h2
        refine ⟨0, Nat.succ_pos f, by simp, by simpa using hf, by omega⟩
      · rintro ⟨k, hk, rfl, hfind, hprev⟩
        cases k with
        | zero =>
          simp only [Nat.add_zero] at hfind ⊢
          rw [hf] at hfind
          injection hfind with ht
          rw [ht]
        | succ k' =>
          have h0 := hprev 0 (Nat.succ_pos k')
          rw [Nat.add_zero] at h0
          rw [h0] at hf
          cases hf
    | none =>
      simp only [hf, ih (a + 1)]
      constructor
      · rintro ⟨k, hk, hsubj, hfind, hprev⟩
        refine ⟨k + 1, by omega, ?_, hfind, ?_⟩
        · have harith : i + (a + (k + 1)) = i + (a + 1 + k) := by omega
          rw [harith]; exact hsubj
        · intro j hj
          cases j with
          | zero => simpa using hf
          | succ j' =>
            have := hprev j' (by omega)
            have harith : i + (a + (j' + 1)) = i + (a + 1 + j') := by omega
            rw [harith]; exact this
      · rintro ⟨k, hk, hsubj, hfind, hprev⟩
        cases k with
        | zero =>
          rw [Nat.add_zero] at hsubj
          rw [hsubj] at hfind
          rw [hf] at hfind
          cases hfind
        | succ k' =>
          refine ⟨k', by omega, ?_, hfind, ?_⟩
          · have harith : i + (a + 1 + k') = i + (a + (k' + 1)) := by omega
            rw [harith]; exact hsubj
          · intro j hj
            have := hprev (j + 1) (by omega)
            have harith : i + (a + 1 + j) = i + (a + (j + 1)) := by omega
            rw [harith]; exact this

theorem assignSlot_eq_none_iff (cat : Catalog) (s : FullSchedule) (d : Day)
    (p : Nat) (rot : List Subject) (i : Nat) :
    assignSlot cat s d p rot i = none ↔
      ∀ k < rot.length,
        firstFreeTeacher cat s d p (rot.getD ((i + k) % rot.length) "")
          = none := by
  unfold assignSlot
  rw [tryCandidates_eq_none_iff]
  constructor
  · intro h k hk; simpa using h k hk
  · intro h k hk; simpa using h k hk

theorem assignSlot_eq_some_iff (cat : Catalog) (s : FullSchedule) (d : Day)
    (p : Nat) (rot : List Subject) (i : Nat) (subj : Subject) (t : Teacher) :
    assignSlot cat s d p rot i = some (subj, t) ↔
      ∃ k < rot.length,
        subj = rot.getD ((i + k) % rot.length) "" ∧
        firstFreeTeacher cat s d p subj = some t ∧
        ∀ j < k,
          firstFreeTeacher cat s d p (rot.getD ((i + j) % rot.length) "")
            = none := by
  unfold assignSlot
  rw [tryCandidates_eq_some_iff]
  constructor
  · rintro ⟨k, hk, hsubj, hfind, hprev⟩
    exact ⟨k, hk, by simpa using hsubj, hfind, fun j hj => by simpa using hprev j hj⟩
  · rintro ⟨k, hk, hsubj, hfind, hprev⟩
    exact ⟨k, hk, by simpa using hsubj, hfind, fun j hj => by simpa using hprev j hj⟩

/-- Everything a successful slot decision guarantees: the subject comes from
the rotation, the teacher from that subject's catalog list, and the
availability tracker approved the teacher against the current state. -/
theorem assignSlot_some_facts (cat : Catalog) (s : FullSchedule) (d : Day)
    (p : Nat) (rot : List Subject) (i : Nat) (subj : Subject) (t : Teacher)
    (h : assignSlot cat s d p rot i = some (subj, t)) :
    subj ∈ rot ∧ t ∈ cat.teachers subj ∧
      canAssignTeacher cat s t d p = true := by
  rw [assignSlot_eq_some_iff] at h
  obtain ⟨k, hk, hsubj, hfind, -⟩ := h
  have hlen : 0 < rot.length := by omega
  have hidx : (i + k) % rot.length < rot.length := Nat.mod_lt _ hlen
  have hmem : subj ∈ rot := by
    rw [hsubj, List.getD_eq_getElem _ _ hidx]
    exact List.getElem_mem hidx
  unfold firstFreeTeacher at hfind
  have hp := List.find?_some hfind
  exact ⟨hmem, List.mem_of_find?_eq_some hfind, by simpa using hp⟩

/-! ### Step equations -/

theorem stepPeriod_fst_of_some (cat : Catalog) (cls : ClassName) (day : Day)
    (rot : List Subject) (s : FullSchedule) (i p : Nat) (subj : Subject)
    (t : Teacher) (h : assignSlot cat s day p rot i = some (subj, t)) :
    (stepPeriod cat cls day rot (s, i) p).1 =
      setSlot s cls day (.p p) (.slot subj t) := by
  simp [stepPeriod, h]

theorem stepPeriod_fst_of_none (cat : Catalog) (cls : ClassName) (day : Day)
    (rot : List Subject) (s : FullSchedule) (i p : Nat)
    (h : assignSlot cat s day p rot i = none) :
    (stepPeriod cat cls day rot (s, i) p).1 =
      setSlot s cls day (.p p) .freeMark := by
  simp [stepPeriod, h]

/-- Whatever the slot decision, the step writes exactly one key,
`(cls, day, period)`; every other key reads as before. -/
theorem stepPeriod_getSlot_ne (cat : Catalog) (cls : ClassName) (day : Day)
    (rot : List Subject) (s : FullSchedule) (i p : Nat) {c' : ClassName}
    {d' : Day} {k' : PeriodKey} (h : (cls, day, PeriodKey.p p) ≠ (c', d', k')) :
    getSlot (stepPeriod cat cls day rot (s, i) p).1 c' d' k' =
      getSlot s c' d' k' := by
  cases ha : assignSlot cat s day p rot i with
  | none => rw [stepPeriod_fst_of_none _ _ _ _ _ _ _ ha, getSlot_setSlot_ne _ _ _ _ _ h]
  | some v =>
    obtain ⟨subj, t⟩ := v
    rw [stepPeriod_fst_of_some _ _ _ _ _ _ _ _ _ ha, getSlot_setSlot_ne _ _ _ _ _ h]

theorem tryCandidates_index_mod (cat : Catalog) (s : FullSchedule) (d : Day)
    (p : Nat) (rot : List Subject) (i : Nat) :
    ∀ fuel a, tryCandidates cat s d p rot (i % rot.length) a fuel =
      tryCandidates cat s d p rot i a fuel := by
  intro fuel
  induction fuel with
  | zero => intro a; rfl
  | succ f ih =>
    intro a
    rw [tryCandidates, tryCandidates]
    simp only [Nat.mod_add_mod]
    cases hf : firstFreeTeacher cat s d p
        (rot.getD ((i + a) % rot.length) "") with
    | some t => simp [hf]
    | none => simp [hf, ih (a + 1)]

/-- C3 (rotation monotonicity).  Within one (class, day) pass the rotation
counter advances by exactly one when the slot decision succeeds and is left
unchanged when the slot ends up Free, so the next successful assignment
starts from offset `i + 1`; and the counter is only ever consulted modulo
the subject count, so offset `i + 1` means rotation index
`(i + 1) % subjectCount`. -/
theorem rotation_advances_only_on_success (cat : Catalog) (cls : ClassName)
    (day : Day) (rot : List Subject) (s : FullSchedule) (i p : Nat) :
    (stepPeriod cat cls day rot (s, i) p).2 =
      (if (assignSlot cat s day p rot i).isSome then i + 1 else i) ∧
    assignSlot cat s day p rot i = assignSlot cat s day p rot (i % rot.length) := by
  constructor
  · cases h : assignSlot cat s day p rot i with
    | none => simp [stepPeriod, h]
    | some v => obtain ⟨subj, t⟩ := v; simp [stepPeriod, h]
  · unfold assignSlot
    rw [tryCandidates_index_mod]

/-- C6 (availability query correctness).  `canAssignTeacher` is `false`
exactly when some class's slot at `(day, period)` already holds an
assignment naming the queried teacher, and `true` otherwise.  The query is
a pure function of the schedule argument: it returns only a `Bool` and the
embedding passes the state read-only, so it cannot modify the schedule. -/
theorem availability_query_correct (cat : Catalog) (s : FullSchedule)
    (t : Teacher) (d : Day) (p : Nat) :
    (canAssignTeacher cat s t d p = false ↔
      ∃ c ∈ cat.classes, ∃ a, getSlot s c d (.p p) = some (.slot a t)) ∧
    (canAssignTeacher cat s t d p = true ↔
      ¬ ∃ c ∈ cat.classes, ∃ a, getSlot s c d (.p p) = some (.slot a t)) := by
  refine ⟨canAssignTeacher_eq_false_iff cat s t d p, ?_⟩
  rw [← canAssignTeacher_eq_false_iff cat s t d p]
  constructor
  · intro h hfalse; rw [hfalse] at h; cases h
  · intro h
    cases hb : canAssignTeacher cat s t d p with
    | false => exact absurd hb h
    | true => rfl

/-! ### Generic fold helpers -/

theorem foldl_invariant {α β : Type _} {P : β → Prop} (f : β → α → β) :
    ∀ (l : List α) (b : β), P b →
      (∀ b' a, a ∈ l → P b' → P (f b' a)) → P (l.foldl f b)
  | [], _, h0, _ => h0
  | a :: rest, b, h0, hstep => by
    rw [List.foldl_cons]
    exact foldl_invariant f rest (f b a)
      (hstep b a (List.mem_cons_self a rest) h0)
      (fun b' y hy hP => hstep b' y (List.mem_cons_of_mem a hy) hP)

theorem foldl_establish {α β : Type _} {P : β → Prop} (f : β → α → β) :
    ∀ (l : List α) (x : α), x ∈ l → (∀ b, P (f b x)) →
      (∀ b' a, a ∈ l → P b' → P (f b' a)) → ∀ b, P (l.foldl f b)
  | [], x, hx, _, _ => absurd hx (List.not_mem_nil x)
  | a :: rest, x, hx, hest, hpres => by
    intro b
    rw [List.foldl_cons]
    rcases List.mem_cons.mp hx with rfl | hx'
    · exact foldl_invariant f rest (f b x) (hest b)
        (fun b' y hy hP => hpres b' y (List.mem_cons_of_mem x hy) hP)
    · exact foldl_establish f rest x hx' hest
        (fun b' y hy hP => hpres b' y (List.mem_cons_of_mem a hy) hP) (f b a)

/-! ### The initialized grid -/

theorem initVal_ne_slot (k : PeriodKey) (a : Subject) (t : Teacher) :
    initVal k ≠ SlotVal.slot a t := by
  cases k <;> simp [initVal]

/-- An initialization write never disturbs an already-initialized cell:
the value written at a key is a function of the key alone. -/
theorem initWrite_preserve (s : FullSchedule) (cls : ClassName) (day : Day)
    (key : PeriodKey) {c : ClassName} {d : Day} {k : PeriodKey}
    (h : getSlot s c d k = some (initVal k)) :
    getSlot (setSlot s cls day key (initVal key)) c d k = some (initVal k) := by
  by_cases he : (cls, day, key) = (c, d, k)
  · rw [getSlot_setSlot, if_pos he]
    simp only [Prod.ext_iff] at he
    rw [he.2.2]
  · rw [getSlot_setSlot_ne _ _ _ _ _ he]
    exact h

/-- Step 1 of the builder: after initialization, every in-grid cell holds
its initial value (`Free` at teaching keys, the marker at break keys). -/
theorem getSlot_initSchedule (cat : Catalog) {c : ClassName} {d : Day}
    {k : PeriodKey} (hc : c ∈ cat.classes) (hd : d ∈ cat.days)
    (hk : k ∈ PERIODS) :
    getSlot (initSchedule cat) c d k = some (initVal k) := by
  unfold initSchedule
  refine @foldl_establish _ _
    (fun s => getSlot s c d k = some (initVal k)) _ cat.classes c hc ?_ ?_
    emptySchedule
  · intro b
    refine @foldl_establish _ _
      (fun s => getSlot s c d k = some (initVal k)) _ cat.days d hd ?_ ?_ b
    · intro b2
      refine @foldl_establish _ _
        (fun s => getSlot s c d k = some (initVal k)) _ PERIODS k hk ?_ ?_ b2
      · intro b3
        exact getSlot_setSlot_same b3 c d k (initVal k)
      · intro b' key hkey hP
        exact initWrite_preserve b' c d key hP
    · intro b' day' hday' hP
      exact @foldl_invariant _ _
        (fun s => getSlot s c d k = some (initVal k)) _ PERIODS b' hP
        (fun b2' key hkey hP2 => initWrite_preserve b2' c day' key hP2)
  · intro b' cls' hcls' hP
    exact @foldl_invariant _ _
      (fun s => getSlot s c d k = some (initVal k)) _ cat.days b' hP
      (fun bd day' hday' hPd =>
        @foldl_invariant _ _
          (fun s => getSlot s c d k = some (initVal k)) _ PERIODS bd hPd
          (fun b2' key hkey hP2 => initWrite_preserve b2' cls' day' key hP2))

/-- The initialized grid contains no assignment anywhere. -/
theorem initSchedule_no_slot (cat : Catalog) :
    ∀ c d k a t, getSlot (initSchedule cat) c d k ≠ some (.slot a t) := by
  unfold initSchedule
  refine @foldl_invariant _ _
    (fun s => ∀ c d k a t, getSlot s c d k ≠ some (.slot a t))
    _ cat.classes emptySchedule ?_ ?_
  · intro c d k a t
    simp [getSlot_empty]
  · intro b cls hcls hP
    refine @foldl_invariant _ _
      (fun s => ∀ c d k a t, getSlot s c d k ≠ some (.slot a t))
      _ cat.days b hP ?_
    intro b2 day hday hP2
    refine @foldl_invariant _ _
      (fun s => ∀ c d k a t, getSlot s c d k ≠ some (.slot a t))
      _ PERIODS b2 hP2 ?_
    intro b3 key hkey hP3 c d k a t
    rw [getSlot_setSlot]
    by_cases he : (cls, day, key) = (c, d, k)
    · rw [if_pos he]
      intro hcon
      injection hcon with hv
      exact initVal_ne_slot key a t hv
    · rw [if_neg he]
      exact hP3 c d k a t

/-! ### The no-double-booking invariant -/

/-- Reading an assignment through a write of a non-assignment value means
the assignment was already there. -/
theorem getSlot_setSlot_slot_inv (s : FullSchedule) (c : ClassName) (d : Day)
    (k : PeriodKey) (v : SlotVal) {c' : ClassName} {d' : Day} {k' : PeriodKey}
    {a : Subject} {t : Teacher} (hv : ∀ a' t', v ≠ SlotVal.slot a' t')
    (h : getSlot (setSlot s c d k v) c' d' k' = some (.slot a t)) :
    getSlot s c' d' k' = some (.slot a t) := by
  rw [getSlot_setSlot] at h
  by_cases he : (c, d, k) = (c', d', k')
  · rw [if_pos he] at h
    injection h with h
    exact absurd h (hv a t)
  · rw [if_neg he] at h
    exact h

theorem stepPeriod_preserves_ndb (cat : Catalog) (cls : ClassName) (day : Day)
    (rot : List Subject) (s : FullSchedule) (i p : Nat)
    (h : NoDoubleBooking cat s) :
    NoDoubleBooking cat (stepPeriod cat cls day rot (s, i) p).1 := by
  cases ha : assignSlot cat s day p rot i with
  | none =>
    rw [stepPeriod_fst_of_none _ _ _ _ _ _ _ ha]
    intro c1 hc1 c2 hc2 hne d' p' a1 t1 a2 t2 h1 h2
    exact h c1 hc1 c2 hc2 hne d' p' a1 t1 a2 t2
      (getSlot_setSlot_slot_inv _ _ _ _ _ (by simp) h1)
      (getSlot_setSlot_slot_inv _ _ _ _ _ (by simp) h2)
  | some v =>
    obtain ⟨subj, te⟩ := v
    obtain ⟨-, -, hcan⟩ := assignSlot_some_facts _ _ _ _ _ _ _ _ ha
    rw [canAssignTeacher_eq_true_iff] at hcan
    rw [stepPeriod_fst_of_some _ _ _ _ _ _ _ _ _ ha]
    intro c1 hc1 c2 hc2 hne d' p' a1 t1 a2 t2 h1 h2
    rw [getSlot_setSlot] at h1 h2
    by_cases he1 : (cls, day, PeriodKey.p p) = (c1, d', PeriodKey.p p')
    · rw [if_pos he1] at h1
      by_cases he2 : (cls, day, PeriodKey.p p) = (c2, d', PeriodKey.p p')
      · exfalso
        simp only [Prod.ext_iff] at he1 he2
        exact hne (he1.1 ▸ he2.1 ▸ rfl)
      · rw [if_neg he2] at h2
        injection h1 with hv1
        injection hv1 with hsub1 hte1
        simp only [Prod.ext_iff, PeriodKey.p.injEq] at he1
        obtain ⟨-, hday, hp⟩ := he1
        subst hday
        subst hp
        have := hcan c2 hc2 a2 t2 h2
        rw [← hte1]
        exact fun hcon => this (hcon ▸ rfl)
    · rw [if_neg he1] at h1
      by_cases he2 : (cls, day, PeriodKey.p p) = (c2, d', PeriodKey.p p')
      · rw [if_pos he2] at h2
        injection h2 with hv2
        injection hv2 with hsub2 hte2
        simp only [Prod.ext_iff, PeriodKey.p.injEq] at he2
        obtain ⟨-, hday, hp⟩ := he2
        subst hday
        subst hp
        have := hcan c1 hc1 a1 t1 h1
        rw [← hte2]
        exact fun hcon => this (hcon.symm ▸ rfl)
      · rw [if_neg he2] at h2
        exact h c1 hc1 c2 hc2 hne d' p' a1 t1 a2 t2 h1 h2

theorem reached_ndb (cat : Catalog) : ∀ s, Reached cat s →
    NoDoubleBooking cat s := by
  intro s h
  induction h with
  | init =>
    intro c1 hc1 c2 hc2 hne d' p' a1 t1 a2 t2 h1 h2
    exact absurd h1 (initSchedule_no_slot cat c1 d' (.p p') a1 t1)
  | step s' cls day rot i p hr ih =>
    exact stepPeriod_preserves_ndb cat cls day rot s' i p ih

theorem reached_foldl_periods (cat : Catalog) (cls : ClassName) (day : Day)
    (rot : List Subject) :
    ∀ (ps : List Nat) (s : FullSchedule) (i : Nat), Reached cat s →
      Reached cat (ps.foldl (stepPeriod cat cls day rot) (s, i)).1
  | [], _, _, h => h
  | p :: rest, s, i, h => by
    rw [List.foldl_cons]
    have hstep : Reached cat (stepPeriod cat cls day rot (s, i) p).1 :=
      Reached.step s cls day rot i p h
    cases hsp : stepPeriod cat cls day rot (s, i) p with
    | mk s' i' =>
      rw [hsp] at hstep
      exact reached_foldl_periods cat cls day rot rest s' i' hstep

theorem reached_processDay (cat : Catalog) (rot : List Subject)
    (s : FullSchedule) (cls : ClassName) (day : Day) (h : Reached cat s) :
    Reached cat (processDay cat rot s cls day) :=
  reached_foldl_periods cat cls day rot teachingPeriods s 0 h

/-- Every state the builder passes through is `Reached`. -/
theorem reached_buildScheduleC (cat : Catalog)
    (rot : ClassName → Day → List Subject) :
    Reached cat (buildScheduleC cat rot) := by
  unfold buildScheduleC
  refine @foldl_invariant _ _ (Reached cat) _ cat.classes (initSchedule cat)
    Reached.init ?_
  intro b cls hcls hP
  refine @foldl_invariant _ _ (Reached cat) _ cat.days b hP ?_
  intro b2 day hday hP2
  exact reached_processDay cat (rot cls day) b2 cls day hP2

/-- C1 (no double-booking).  Every state reachable during construction —
the initialized grid and everything the per-period steps produce from it,
which covers every intermediate state of `buildSchedule` as well as its
result — satisfies the no-double-booking invariant: at any day and teaching
period, two distinct catalog classes never hold assignments naming the same
teacher.  The returned schedule is such a state, for every outcome of the
random shuffles. -/
theorem no_double_booking_always :
    (∀ s, Reached CATALOG s → NoDoubleBooking CATALOG s) ∧
    (∀ cmp, Reached CATALOG (buildSchedule cmp)) ∧
    (∀ cmp, NoDoubleBooking CATALOG (buildSchedule cmp)) :=
  ⟨reached_ndb CATALOG,
   fun cmp => reached_buildScheduleC CATALOG (rotationFor cmp),
   fun cmp => reached_ndb CATALOG _ (reached_buildScheduleC CATALOG (rotationFor cmp))⟩

/-- Witness for C1: the invariant holds at a concrete reachable state,
obtained by applying the theorem itself. -/
theorem no_double_booking_always_witness :
    NoDoubleBooking CATALOG (buildSchedule (fun _ _ _ _ => true)) :=
  no_double_booking_always.1 _ (no_double_booking_always.2.1 _)

/-! ### Grid completeness -/

theorem stepPeriod_preserves_gridInv (cat : Catalog) (cls : ClassName)
    (day : Day) (rot : List Subject) (s : FullSchedule) (i p : Nat)
    (h : GridInv cat s) : GridInv cat (stepPeriod cat cls day rot (s, i) p).1 := by
  intro c hc d hd
  obtain ⟨hre, hlu, hteach⟩ := h c hc d hd
  refine ⟨?_, ?_, ?_⟩
  · rw [stepPeriod_getSlot_ne cat cls day rot s i p (by simp [Prod.ext_iff])]
    exact hre
  · rw [stepPeriod_getSlot_ne cat cls day rot s i p (by simp [Prod.ext_iff])]
    exact hlu
  · intro n hn
    by_cases he : (cls, day, PeriodKey.p p) = (c, d, PeriodKey.p n)
    · cases ha : assignSlot cat s day p rot i with
      | none =>
        rw [stepPeriod_fst_of_none _ _ _ _ _ _ _ ha, getSlot_setSlot, if_pos he]
        left
        rfl
      | some v =>
        obtain ⟨subj, te⟩ := v
        rw [stepPeriod_fst_of_some _ _ _ _ _ _ _ _ _ ha, getSlot_setSlot,
          if_pos he]
        right
        exact ⟨subj, te, rfl⟩
    · rw [stepPeriod_getSlot_ne cat cls day rot s i p he]
      exact hteach n hn

theorem reached_gridInv (cat : Catalog) : ∀ s, Reached cat s → GridInv cat s := by
  intro s h
  induction h with
  | init =>
    intro c hc d hd
    refine ⟨?_, ?_, ?_⟩
    · exact getSlot_initSchedule cat hc hd (by decide)
    · exact getSlot_initSchedule cat hc hd (by decide)
    · intro n hn
      left
      exact getSlot_initSchedule cat hc hd hn
  | step s' cls day rot i p hr ih =>
    exact stepPeriod_preserves_gridInv cat cls day rot s' i p ih

/-- C4 (grid completeness).  In every schedule `buildSchedule` returns, for
every catalog class and day, each of the eight period keys of the layout
holds exactly one entry (the lookup is `some _`, and a JS object holds one
value per key): `Recess` and `Lunch` hold their own marker, and each
teaching key 1..6 holds either `Free` or an assignment — never absent. -/
theorem grid_completeness (cmp : ClassName → Day → Subject → Subject → Bool)
    (c : ClassName) (d : Day) (hc : c ∈ CLASSES) (hd : d ∈ DAYS) :
    getSlot (buildSchedule cmp) c d .recessK = some .recessMark ∧
    getSlot (buildSchedule cmp) c d .lunchK = some .lunchMark ∧
    (∀ n, PeriodKey.p n ∈ PERIODS →
      getSlot (buildSchedule cmp) c d (.p n) = some .freeMark ∨
      ∃ a t, getSlot (buildSchedule cmp) c d (.p n) = some (.slot a t)) :=
  reached_gridInv CATALOG _ (reached_buildScheduleC CATALOG (rotationFor cmp))
    c hc d hd

/-- Witness for C4 at a concrete class and day. -/
theorem grid_completeness_witness :
    getSlot (buildSchedule (fun _ _ _ _ => true)) "Grade 10-A" "Monday"
        .recessK = some .recessMark ∧
    getSlot (buildSchedule (fun _ _ _ _ => true)) "Grade 10-A" "Monday"
        .lunchK = some .lunchMark ∧
    (∀ n, PeriodKey.p n ∈ PERIODS →
      getSlot (buildSchedule (fun _ _ _ _ => true)) "Grade 10-A" "Monday"
          (.p n) = some .freeMark ∨
      ∃ a t, getSlot (buildSchedule (fun _ _ _ _ => true)) "Grade 10-A"
          "Monday" (.p n) = some (.slot a t)) :=
  grid_completeness (fun _ _ _ _ => true) "Grade 10-A" "Monday" (by decide)
    (by decide)

/-! ### Assignment validity -/

theorem stepPeriod_preserves_teacherValid (cat : Catalog) (cls : ClassName)
    (day : Day) (rot : List Subject) (s : FullSchedule) (i p : Nat)
    (h : AssignTeacherValid cat s) :
    AssignTeacherValid cat (stepPeriod cat cls day rot (s, i) p).1 := by
  cases ha : assignSlot cat s day p rot i with
  | none =>
    rw [stepPeriod_fst_of_none _ _ _ _ _ _ _ ha]
    intro c d n a t hs
    exact h c d n a t (getSlot_setSlot_slot_inv _ _ _ _ _ (by simp) hs)
  | some v =>
    obtain ⟨subj, te⟩ := v
    obtain ⟨-, hmem, -⟩ := assignSlot_some_facts _ _ _ _ _ _ _ _ ha
    rw [stepPeriod_fst_of_some _ _ _ _ _ _ _ _ _ ha]
    intro c d n a t hs
    rw [getSlot_setSlot] at hs
    by_cases he : (cls, day, PeriodKey.p p) = (c, d, PeriodKey.p n)
    · rw [if_pos he] at hs
      injection hs with hv
      injection hv with h1 h2
      rw [← h1, ← h2]
      exact hmem
    · rw [if_neg he] at hs
      exact h c d n a t hs

theorem reached_teacherValid (cat : Catalog) : ∀ s, Reached cat s →
    AssignTeacherValid cat s := by
  intro s h
  induction h with
  | init =>
    intro c d n a t hs
    exact absurd hs (initSchedule_no_slot cat c d (.p n) a t)
  | step s' cls day rot i p hr ih =>
    exact stepPeriod_preserves_teacherValid cat cls day rot s' i p ih

theorem stepPeriod_preserves_subjectValid (cat : Catalog) (cls : ClassName)
    (day : Day) (rot : List Subject) (s : FullSchedule) (i p : Nat)
    (hrot : ∀ x ∈ rot, x ∈ cat.subjects) (h : AssignSubjectValid cat s) :
    AssignSubjectValid cat (stepPeriod cat cls day rot (s, i) p).1 := by
  cases ha : assignSlot cat s day p rot i with
  | none =>
    rw [stepPeriod_fst_of_none _ _ _ _ _ _ _ ha]
    intro c d n a t hs
    exact h c d n a t (getSlot_setSlot_slot_inv _ _ _ _ _ (by simp) hs)
  | some v =>
    obtain ⟨subj, te⟩ := v
    obtain ⟨hsubj, -, -⟩ := assignSlot_some_facts _ _ _ _ _ _ _ _ ha
    rw [stepPeriod_fst_of_some _ _ _ _ _ _ _ _ _ ha]
    intro c d n a t hs
    rw [getSlot_setSlot] at hs
    by_cases he : (cls, day, PeriodKey.p p) = (c, d, PeriodKey.p n)
    · rw [if_pos he] at hs
      injection hs with hv
      injection hv with h1 h2
      rw [← h1]
      exact hrot subj hsubj
    · rw [if_neg he] at hs
      exact h c d n a t hs

/-- Subject validity along the actual build, for any rotation oracle whose
lists only mention catalog subjects. -/
theorem build_subjectValid (cat : Catalog)
    (rot : ClassName → Day → List Subject)
    (hrot : ∀ c' d', ∀ x ∈ rot c' d', x ∈ cat.subjects) :
    AssignSubjectValid cat (buildScheduleC cat rot) := by
  unfold buildScheduleC
  refine @foldl_invariant _ _ (AssignSubjectValid cat) _ cat.classes
    (initSchedule cat) ?_ ?_
  · intro c d n a t hs
    exact absurd hs (initSchedule_no_slot cat c d (.p n) a t)
  · intro b cls hcls hP
    refine @foldl_invariant _ _ (AssignSubjectValid cat) _ cat.days b hP ?_
    intro b2 day hday hP2
    unfold processDay
    refine @foldl_invariant _ _
      (fun q : FullSchedule × Nat => AssignSubjectValid cat q.1) _
      teachingPeriods (b2, 0) hP2 ?_
    intro q p hp hQ
    obtain ⟨s0, i0⟩ := q
    exact stepPeriod_preserves_subjectValid cat cls day (rot cls day) s0 i0 p
      (hrot cls day) hQ

/-! ### The shuffle is a permutation -/

theorem insertBy_perm (le : Subject → Subject → Bool) (x : Subject) :
    ∀ l : List Subject, (insertBy le x l).Perm (x :: l)
  | [] => List.Perm.refl _
  | y :: ys => by
    rw [insertBy]
    by_cases hle : le x y
    · rw [if_pos hle]
    · rw [if_neg hle]
      exact ((insertBy_perm le x ys).cons y).trans (List.Perm.swap x y ys)

theorem sortBy_perm (le : Subject → Subject → Bool) :
    ∀ l : List Subject, (sortBy le l).Perm l
  | [] => List.Perm.refl _
  | x :: xs => by
    rw [sortBy]
    exact (insertBy_perm le x (sortBy le xs)).trans ((sortBy_perm le xs).cons x)

theorem rotationFor_perm (cmp : ClassName → Day → Subject → Subject → Bool)
    (cls : ClassName) (day : Day) : (rotationFor cmp cls day).Perm SUBJECTS :=
  sortBy_perm (cmp cls day) SUBJECTS

/-- C7 (subject validity).  In every schedule `buildSchedule` returns, for
every outcome of the random shuffles, every assignment's teacher belongs to
the catalog teacher list `TEACHERS` of the assigned subject, and the
assigned subject belongs to the subject catalog `SUBJECTS`. -/
theorem subject_validity (cmp : ClassName → Day → Subject → Subject → Bool)
    (c : ClassName) (d : Day) (n : Nat) (a : Subject) (t : Teacher)
    (h : getSlot (buildSchedule cmp) c d (.p n) = some (.slot a t)) :
    t ∈ TEACHERS a ∧ a ∈ SUBJECTS := by
  constructor
  · exact reached_teacherValid CATALOG _
      (reached_buildScheduleC CATALOG (rotationFor cmp)) c d n a t h
  · refine build_subjectValid CATALOG (rotationFor cmp) ?_ c d n a t h
    intro c' d' x hx
    exact (rotationFor_perm cmp c' d').mem_iff.mp hx

set_option maxRecDepth 1000000 in
/-- Witness for C7: a concrete assignment of the built schedule, with its
teacher in the subject's catalog list. -/
theorem subject_validity_witness :
    getSlot (buildSchedule (fun _ _ _ _ => true)) "Grade 10-A" "Monday"
        (.p 1) = some (.slot "Math" "Mr. Smith") ∧
    ("Mr. Smith" ∈ TEACHERS "Math" ∧ "Math" ∈ SUBJECTS) := by
  have h : getSlot (buildSchedule (fun _ _ _ _ => true)) "Grade 10-A"
      "Monday" (.p 1) = some (.slot "Math" "Mr. Smith") := by decide
  exact ⟨h, subject_validity (fun _ _ _ _ => true) "Grade 10-A" "Monday" 1
    "Math" "Mr. Smith" h⟩

/-- C8 (rotation is a full-catalog permutation).  For every outcome of the
random comparator, the rotation generated for a (class, day) pair is a
permutation of the full subject catalog, containing each catalog subject
exactly once; the builder consults exactly these rotations; and the
rotation is scoped to its (class, day) pair — for any two distinct pairs
there is a comparator outcome under which their rotations differ, so the
rotation is not a shared constant across days or classes. -/
theorem rotation_full_permutation :
    (∀ cmp cls day, (rotationFor cmp cls day).Perm SUBJECTS) ∧
    (∀ cmp cls day, ∀ sub ∈ SUBJECTS,
      (rotationFor cmp cls day).count sub = 1) ∧
    (∀ cmp, buildSchedule cmp = buildScheduleC CATALOG (rotationFor cmp)) ∧
    (∀ (c1 d1 c2 d2 : String), (c1, d1) ≠ (c2, d2) →
      ∃ cmp, rotationFor cmp c1 d1 ≠ rotationFor cmp c2 d2) := by
  refine ⟨rotationFor_perm, ?_, fun _ => rfl, ?_⟩
  · intro cmp cls day sub hsub
    rw [(rotationFor_perm cmp cls day).count_eq]
    simp only [SUBJECTS, List.mem_cons, List.not_mem_nil, or_false] at hsub
    rcases hsub with rfl | rfl | rfl | rfl | rfl | rfl <;> decide
  · intro c1 d1 c2 d2 h
    refine ⟨fun c d => if (c, d) = (c1, d1) then (fun _ _ => true)
      else (fun _ _ => false), ?_⟩
    unfold rotationFor
    beta_reduce
    rw [if_pos rfl, if_neg (fun hh => h hh.symm)]
    decide

/-- Witness for C8: concrete instances of the hypothesis-bearing parts. -/
theorem rotation_full_permutation_witness :
    (rotationFor (fun _ _ _ _ => true) "Grade 10-A" "Monday").count "Math"
        = 1 ∧
    ∃ cmp, rotationFor cmp "Grade 10-A" "Monday" ≠
      rotationFor cmp "Grade 10-B" "Monday" :=
  ⟨rotation_full_permutation.2.1 (fun _ _ _ _ => true) "Grade 10-A" "Monday"
      "Math" (by decide),
   rotation_full_permutation.2.2.2 "Grade 10-A" "Monday" "Grade 10-B"
      "Monday" (by decide)⟩

/-! ### Totality and the absence of a configuration-error path -/

/-- Every in-grid key of a built schedule is present, for any catalog and
any rotation oracle. -/
theorem buildScheduleC_complete (cat : Catalog)
    (rot : ClassName → Day → List Subject) (c : ClassName) (d : Day)
    (hc : c ∈ cat.classes) (hd : d ∈ cat.days) :
    ∀ k ∈ PERIODS, ∃ v, getSlot (buildScheduleC cat rot) c d k = some v := by
  obtain ⟨h1, h2, h3⟩ :=
    reached_gridInv cat _ (reached_buildScheduleC cat rot) c hc d hd
  intro k hk
  cases k with
  | p n =>
    rcases h3 n hk with hfree | ⟨a, t, hslot⟩
    · exact ⟨.freeMark, hfree⟩
    · exact ⟨.slot a t, hslot⟩
  | recessK => exact ⟨.recessMark, h1⟩
  | lunchK => exact ⟨.lunchMark, h2⟩

/-- If every rotation the oracle hands out is empty, the retry loop never
runs and every teaching slot of the build result is `Free`. -/
theorem build_empty_rot_free (cat : Catalog)
    (rot : ClassName → Day → List Subject) (hrot : ∀ c' d', rot c' d' = []) :
    ∀ c ∈ cat.classes, ∀ d ∈ cat.days, ∀ n, PeriodKey.p n ∈ PERIODS →
      getSlot (buildScheduleC cat rot) c d (.p n) = some .freeMark := by
  unfold buildScheduleC
  refine @foldl_invariant _ _
    (fun s => ∀ c ∈ cat.classes, ∀ d ∈ cat.days, ∀ n, PeriodKey.p n ∈ PERIODS →
      getSlot s c d (.p n) = some .freeMark) _ cat.classes (initSchedule cat)
    ?_ ?_
  · intro c hc d hd n hn
    exact getSlot_initSchedule cat hc hd hn
  · intro b cls hcls hP
    refine @foldl_invariant _ _
      (fun s => ∀ c ∈ cat.classes, ∀ d ∈ cat.days, ∀ n,
        PeriodKey.p n ∈ PERIODS → getSlot s c d (.p n) = some .freeMark) _
      cat.days b hP ?_
    intro b2 day hday hP2
    unfold processDay
    rw [hrot cls day]
    refine @foldl_invariant _ _
      (fun q : FullSchedule × Nat => ∀ c ∈ cat.classes, ∀ d ∈ cat.days, ∀ n,
        PeriodKey.p n ∈ PERIODS → getSlot q.1 c d (.p n) = some .freeMark) _
      teachingPeriods (b2, 0) hP2 ?_
    intro q p hp hQ
    obtain ⟨s0, i0⟩ := q
    have ha : assignSlot cat s0 day p [] i0 = none := rfl
    rw [stepPeriod_fst_of_none _ _ _ _ _ _ _ ha]
    intro c hc d hd n hn
    by_cases he : (cls, day, PeriodKey.p p) = (c, d, PeriodKey.p n)
    · rw [getSlot_setSlot, if_pos he]
    · rw [getSlot_setSlot_ne _ _ _ _ _ he]
      exact hQ c hc d hd n hn

/-- C9 (implicit — totality of `buildSchedule`).  For any catalog contents,
the build is a total function whose result covers every in-grid cell; a
subject whose teacher list is empty can never be the subject of a
successful slot decision (the teacher search over its empty list fails and
the loop simply moves on); with an empty rotation the retry loop's bound is
zero, so the slot decision is `none` by the very first equation of the loop
— no rotation index (and no `% 0`) is ever formed; and when the subject
catalog is empty every shuffle outcome is the empty rotation, so every
teaching period of the result is `Free`. -/
theorem build_total_on_any_catalog :
    (∀ (cat : Catalog) (rot : ClassName → Day → List Subject)
       (c : ClassName) (d : Day), c ∈ cat.classes → d ∈ cat.days →
       ∀ k ∈ PERIODS, ∃ v, getSlot (buildScheduleC cat rot) c d k = some v) ∧
    (∀ (cat : Catalog) (s : FullSchedule) (day : Day) (p : Nat)
       (rot : List Subject) (i : Nat) (subj : Subject) (t : Teacher),
       cat.teachers subj = [] → assignSlot cat s day p rot i ≠ some (subj, t)) ∧
    (∀ (cat : Catalog) (s : FullSchedule) (day : Day) (p i : Nat),
       assignSlot cat s day p [] i = none) ∧
    (∀ (cat : Catalog) (cmp : ClassName → Day → Subject → Subject → Bool),
       cat.subjects = [] →
       ∀ c ∈ cat.classes, ∀ d ∈ cat.days, ∀ n, PeriodKey.p n ∈ PERIODS →
         getSlot (buildScheduleC cat
             (fun cls day => sortBy (cmp cls day) cat.subjects)) c d (.p n)
           = some .freeMark) := by
  refine ⟨fun cat rot c d hc hd => buildScheduleC_complete cat rot c d hc hd,
    ?_, fun _ _ _ _ _ => rfl, ?_⟩
  · intro cat s day p rot i subj t h hcon
    obtain ⟨-, hmem, -⟩ := assignSlot_some_facts _ _ _ _ _ _ _ _ hcon
    rw [h] at hmem
    cases hmem
  · intro cat cmp hsub
    refine build_empty_rot_free cat _ ?_
    intro c' d'
    rw [hsub]
    rfl

/-- Witness for C9 at the malformed concrete catalog. -/
theorem build_total_on_any_catalog_witness :
    (∃ v, getSlot (buildScheduleC badCatalog (fun _ _ => badCatalog.subjects))
       "Class A" "Monday" (.p 1) = some v) ∧
    assignSlot badCatalog emptySchedule "Monday" 1 ["Math"] 0 ≠
      some ("Math", "T1") := by
  constructor
  · have h := build_total_on_any_catalog.1 badCatalog
      (fun _ _ => badCatalog.subjects) "Class A" "Monday" (by decide)
      (by decide) (.p 1) (by decide)
    exact h
  · exact build_total_on_any_catalog.2.1 badCatalog emptySchedule "Monday" 1
      ["Math"] 0 "Math" "T1" rfl

/-- C2 counterexample.  The code has no configuration-error path: on the
malformed catalog whose only subject has an empty teacher list, the build
does not fail before assignment begins and does not withhold the schedule —
it runs to completion and returns the fully initialized grid with every
teaching slot `Free`.  In particular it is false that no schedule entries
are produced for a malformed catalog. -/
theorem configuration_error_counterexample :
    badCatalog.teachers "Math" = [] ∧ "Math" ∈ badCatalog.subjects ∧
    getSlot (buildScheduleC badCatalog (fun _ _ => badCatalog.subjects))
        "Class A" "Monday" (.p 1) = some .freeMark ∧
    ¬ (∀ c d k, getSlot
        (buildScheduleC badCatalog (fun _ _ => badCatalog.subjects)) c d k
          = none) := by
  have h3 : getSlot (buildScheduleC badCatalog (fun _ _ => badCatalog.subjects))
      "Class A" "Monday" (.p 1) = some .freeMark := by decide
  refine ⟨rfl, by decide, h3, fun hall => ?_⟩
  rw [hall "Class A" "Monday" (.p 1)] at h3
  cases h3

/-- C2 as amended: the build never fails.  On every catalog — malformed
ones included — it returns a complete grid, and a subject with an empty
teacher list is never assigned (every assignment's subject has the
assignment's teacher in its list, so its list is nonempty); there is no
configuration-error code path. -/
theorem no_configuration_error (cat : Catalog)
    (rot : ClassName → Day → List Subject) (c : ClassName) (d : Day)
    (hc : c ∈ cat.classes) (hd : d ∈ cat.days) :
    (∀ k ∈ PERIODS, ∃ v, getSlot (buildScheduleC cat rot) c d k = some v) ∧
    (∀ n a t, getSlot (buildScheduleC cat rot) c d (.p n) = some (.slot a t) →
      cat.teachers a ≠ []) := by
  refine ⟨buildScheduleC_complete cat rot c d hc hd, ?_⟩
  intro n a t hs hnil
  have hmem := reached_teacherValid cat _ (reached_buildScheduleC cat rot)
    c d n a t hs
  rw [hnil] at hmem
  cases hmem

/-- Witness for the amended C2 at the malformed concrete catalog. -/
theorem no_configuration_error_witness :
    (∀ k ∈ PERIODS, ∃ v, getSlot
      (buildScheduleC badCatalog (fun _ _ => badCatalog.subjects))
        "Class A" "Monday" k = some v) ∧
    (∀ n a t, getSlot (buildScheduleC badCatalog (fun _ _ => badCatalog.subjects))
        "Class A" "Monday" (.p n) = some (.slot a t) →
      badCatalog.teachers a ≠ []) :=
  no_configuration_error badCatalog (fun _ _ => badCatalog.subjects)
    "Class A" "Monday" (by decide) (by decide)

/-! ### The slot-assigner contract -/

theorem firstFreeTeacher_eq_some_iff (cat : Catalog) (s : FullSchedule)
    (d : Day) (p : Nat) (subj : Subject) (t : Teacher) :
    firstFreeTeacher cat s d p subj = some t ↔
      canAssignTeacher cat s t d p = true ∧
      ∃ pre post, cat.teachers subj = pre ++ t :: post ∧
        ∀ t' ∈ pre, canAssignTeacher cat s t' d p = false := by
  unfold firstFreeTeacher
  rw [List.find?_eq_some]
  constructor
  · rintro ⟨hp, as, bs, heq, hprev⟩
    exact ⟨hp, as, bs, heq, fun t' ht' => by simpa using hprev t' ht'⟩
  · rintro ⟨hp, as, bs, heq, hprev⟩
    exact ⟨hp, as, bs, heq, fun t' ht' => by simpa using hprev t' ht'⟩

theorem firstFreeTeacher_eq_none_iff (cat : Catalog) (s : FullSchedule)
    (d : Day) (p : Nat) (subj : Subject) :
    firstFreeTeacher cat s d p subj = none ↔
      ∀ t' ∈ cat.teachers subj, canAssignTeacher cat s t' d p = false := by
  unfold firstFreeTeacher
  rw [List.find?_eq_none]
  constructor
  · intro h t' ht'
    simpa using h t' ht'
  · intro h t' ht'
    simp [h t' ht']

/-- C5 (slot-assigner algorithm).  A successful decision returns exactly:
the first candidate `k < N` (`N` = rotation length = subject count) in the
order `rotation[(startIndex + k) % N]` whose subject owns some teacher the
tracker reports free, paired with the first such teacher in that subject's
catalog-order list; all earlier candidates have every teacher busy, and no
later candidate is tried.  The decision is `none` exactly when all `N`
candidates have every qualified teacher busy. -/
theorem slot_assigner_spec (cat : Catalog) (s : FullSchedule) (d : Day)
    (p : Nat) (rot : List Subject) (i : Nat) :
    (∀ subj t, assignSlot cat s d p rot i = some (subj, t) ↔
      ∃ k < rot.length,
        subj = rot.getD ((i + k) % rot.length) "" ∧
        (canAssignTeacher cat s t d p = true ∧
         ∃ pre post, cat.teachers subj = pre ++ t :: post ∧
           ∀ t' ∈ pre, canAssignTeacher cat s t' d p = false) ∧
        ∀ j < k, ∀ t' ∈ cat.teachers (rot.getD ((i + j) % rot.length) ""),
          canAssignTeacher cat s t' d p = false) ∧
    (assignSlot cat s d p rot i = none ↔
      ∀ k < rot.length,
        ∀ t' ∈ cat.teachers (rot.getD ((i + k) % rot.length) ""),
          canAssignTeacher cat s t' d p = false) := by
  constructor
  · intro subj t
    rw [assignSlot_eq_some_iff]
    constructor
    · rintro ⟨k, hk, hsubj, hfind, hprev⟩
      exact ⟨k, hk, hsubj, (firstFreeTeacher_eq_some_iff _ _ _ _ _ _).mp hfind,
        fun j hj => (firstFreeTeacher_eq_none_iff _ _ _ _ _).mp (hprev j hj)⟩
    · rintro ⟨k, hk, hsubj, hfirst, hprev⟩
      exact ⟨k, hk, hsubj, (firstFreeTeacher_eq_some_iff _ _ _ _ _ _).mpr hfirst,
        fun j hj => (firstFreeTeacher_eq_none_iff _ _ _ _ _).mpr (hprev j hj)⟩
  · rw [assignSlot_eq_none_iff]
    constructor
    · intro h k hk
      exact (firstFreeTeacher_eq_none_iff _ _ _ _ _).mp (h k hk)
    · intro h k hk
      exact (firstFreeTeacher_eq_none_iff _ _ _ _ _).mpr (h k hk)

/-! ### No Free slots under the built-in catalog -/

/-- Every rotation index `j < N` is hit by some attempt `k < N` of the
retry loop started at counter `i`: take `k = (j + N - i % N) % N`. -/
theorem index_cover (i j N : Nat) (hN : 0 < N) (hj : j < N) :
    (j + N - i % N) % N < N ∧ (i + (j + N - i % N) % N) % N = j := by
  refine ⟨Nat.mod_lt _ hN, ?_⟩
  rw [Nat.add_mod_mod]
  obtain ⟨q, r, hqr, hrlt⟩ : ∃ q r, N * q + r = i ∧ r < N :=
    ⟨i / N, i % N, Nat.div_add_mod i N, Nat.mod_lt _ hN⟩
  have hr : i % N = r := by
    rw [← hqr, Nat.add_comm (N * q) r, Nat.add_mul_mod_self_left]
    exact Nat.mod_eq_of_lt hrlt
  rw [hr]
  have h2 : r + (j + N - r) = j + N :=
    Nat.add_sub_cancel' (le_trans (Nat.le_of_lt hrlt) (Nat.le_add_left N j))
  have hsum : i + (j + N - r) = j + N * (q + 1) := by
    calc i + (j + N - r) = N * q + r + (j + N - r) := by rw [hqr]
    _ = N * q + (r + (j + N - r)) := by rw [Nat.add_assoc]
    _ = N * q + (j + N) := by rw [h2]
    _ = j + N * (q + 1) := by ring
  rw [hsum, Nat.add_mul_mod_self_left]
  exact Nat.mod_eq_of_lt hj

/-- Pigeonhole over the three catalog classes: three classes all distinct
from a fourth catalog class cannot be pairwise distinct. -/
theorem two_of_three_eq {c1 c2 c3 cls : ClassName} (h1 : c1 ∈ CLASSES)
    (h2 : c2 ∈ CLASSES) (h3 : c3 ∈ CLASSES) (hcls : cls ∈ CLASSES)
    (n1 : c1 ≠ cls) (n2 : c2 ≠ cls) (n3 : c3 ≠ cls) :
    c1 = c2 ∨ c1 = c3 ∨ c2 = c3 := by
  simp only [CLASSES, List.mem_cons, List.not_mem_nil, or_false]
    at h1 h2 h3 hcls
  rcases hcls with rfl | rfl | rfl <;>
    rcases h1 with rfl | rfl | rfl <;>
    rcases h2 with rfl | rfl | rfl <;>
    rcases h3 with rfl | rfl | rfl <;>
    first
      | exact absurd rfl n1
      | exact absurd rfl n2
      | exact absurd rfl n3
      | simp

/-- Under the built-in catalog the retry loop cannot exhaust: when class
`cls`'s own slot is still Free, at most the two other classes hold
bookings at `(d, p)`, so at most two teachers are busy — but blocking all
six subjects would require the distinct teachers of Art, PE, and Math to
be busy at once. -/
theorem assignSlot_succeeds_builtin (s : FullSchedule) (d : Day) (p i : Nat)
    (rot : List Subject) (cls : ClassName) (hcls : cls ∈ CLASSES)
    (hrot : rot.Perm SUBJECTS)
    (hfree : getSlot s cls d (.p p) = some .freeMark) :
    ∃ subj t, assignSlot CATALOG s d p rot i = some (subj, t) := by
  cases hv : assignSlot CATALOG s d p rot i with
  | some v => exact ⟨v.1, v.2, rfl⟩
  | none =>
    exfalso
    rw [assignSlot_eq_none_iff] at hv
    have hblocked : ∀ subj ∈ SUBJECTS, ∀ t' ∈ TEACHERS subj,
        canAssignTeacher CATALOG s t' d p = false := by
      intro subj hsubj t' ht'
      have hmem : subj ∈ rot := hrot.mem_iff.mpr hsubj
      obtain ⟨j, hjlt, hj⟩ := List.getElem_of_mem hmem
      have hN : 0 < rot.length := by omega
      obtain ⟨hklt, hkeq⟩ := index_cover i j rot.length hN hjlt
      have hnone := hv _ hklt
      rw [hkeq] at hnone
      have hgd : rot.getD j "" = subj := by
        rw [List.getD_eq_getElem _ _ hjlt, hj]
      rw [hgd, firstFreeTeacher_eq_none_iff] at hnone
      exact hnone t' ht'
    have hb1 := hblocked "Art" (by decide) "Ms. Black" (by decide)
    have hb2 := hblocked "PE" (by decide) "Coach Carter" (by decide)
    have hb3 := hblocked "Math" (by decide) "Mr. Smith" (by decide)
    rw [canAssignTeacher_eq_false_iff] at hb1 hb2 hb3
    obtain ⟨c1, hm1, a1, hs1⟩ := hb1
    obtain ⟨c2, hm2, a2, hs2⟩ := hb2
    obtain ⟨c3, hm3, a3, hs3⟩ := hb3
    have hn1 : c1 ≠ cls := by intro he; rw [he, hfree] at hs1; cases hs1
    have hn2 : c2 ≠ cls := by intro he; rw [he, hfree] at hs2; cases hs2
    have hn3 : c3 ≠ cls := by intro he; rw [he, hfree] at hs3; cases hs3
    rcases two_of_three_eq hm1 hm2 hm3 hcls hn1 hn2 hn3 with h12 | h13 | h23
    · rw [h12, hs2] at hs1
      injection hs1 with hvv
      injection hvv with ha hteq
      exact absurd hteq (by decide)
    · rw [h13, hs3] at hs1
      injection hs1 with hvv
      injection hvv with ha hteq
      exact absurd hteq (by decide)
    · rw [h23, hs3] at hs2
      injection hs2 with hvv
      injection hvv with ha hteq
      exact absurd hteq (by decide)

theorem teachingPeriod_key_mem {n : Nat} (hn : n ∈ teachingPeriods) :
    PeriodKey.p n ∈ PERIODS := by
  fin_cases hn <;> decide

/-- A (class, day) pass writes only its own keys, at its own periods. -/
theorem periods_fold_locality (cat : Catalog) (cls : ClassName) (d : Day)
    (rot : List Subject) :
    ∀ (ps : List Nat) (q : FullSchedule × Nat) (c' : ClassName) (d' : Day)
      (k' : PeriodKey),
      (∀ p ∈ ps, (cls, d, PeriodKey.p p) ≠ (c', d', k')) →
      getSlot ((ps.foldl (stepPeriod cat cls d rot) q).1) c' d' k' =
        getSlot q.1 c' d' k'
  | [], _, _, _, _, _ => rfl
  | p0 :: rest, q, c', d', k', h => by
    rw [List.foldl_cons,
      periods_fold_locality cat cls d rot rest _ c' d' k'
        (fun p hp => h p (List.mem_cons_of_mem p0 hp))]
    obtain ⟨s, i⟩ := q
    exact stepPeriod_getSlot_ne cat cls d rot s i p0
      (h p0 (List.mem_cons_self p0 rest))

theorem processDay_locality (cat : Catalog) (rot : List Subject)
    (s : FullSchedule) (cls : ClassName) (day : Day) (c' : ClassName)
    (d' : Day) (h : c' ≠ cls ∨ d' ≠ day) (k' : PeriodKey) :
    getSlot (processDay cat rot s cls day) c' d' k' = getSlot s c' d' k' := by
  unfold processDay
  refine periods_fold_locality cat cls day rot teachingPeriods (s, 0) c' d' k'
    (fun p hp heq => ?_)
  simp only [Prod.ext_iff] at heq
  rcases h with h | h
  · exact h heq.1.symm
  · exact h heq.2.1.symm

/-- Under the built-in catalog, a (class, day) pass whose six slots are
still Free assigns all six of them. -/
theorem periods_fold_completes (d : Day) (rot : List Subject)
    (cls : ClassName) (hcls : cls ∈ CLASSES) (hrot : rot.Perm SUBJECTS) :
    ∀ (ps : List Nat), ps.Nodup → ∀ (s : FullSchedule) (i : Nat),
      (∀ p ∈ ps, getSlot s cls d (.p p) = some .freeMark) →
      ∀ p ∈ ps, ∃ a t,
        getSlot ((ps.foldl (stepPeriod CATALOG cls d rot) (s, i)).1) cls d
          (.p p) = some (.slot a t)
  | [], _, _, _, _, p, hp => absurd hp (List.not_mem_nil p)
  | p0 :: rest, hnd, s, i, hfree, p, hp => by
    obtain ⟨hp0notin, hndrest⟩ := List.nodup_cons.mp hnd
    rw [List.foldl_cons]
    obtain ⟨a0, t0, ha⟩ := assignSlot_succeeds_builtin s d p0 i rot cls hcls
      hrot (hfree p0 (List.mem_cons_self p0 rest))
    have hpair : stepPeriod CATALOG cls d rot (s, i) p0 =
        (setSlot s cls d (.p p0) (.slot a0 t0), i + 1) := by
      simp [stepPeriod, ha]
    rw [hpair]
    rcases List.mem_cons.mp hp with rfl | hprest
    · rw [periods_fold_locality CATALOG cls d rot rest _ cls d (.p p)
        (fun q' hq' heq => ?_)]
      · exact ⟨a0, t0, getSlot_setSlot_same s cls d (.p p) (.slot a0 t0)⟩
      · simp only [Prod.ext_iff, PeriodKey.p.injEq] at heq
        exact hp0notin (heq.2.2 ▸ hq')
    · refine periods_fold_completes d rot cls hcls hrot rest hndrest _ (i + 1)
        (fun q' hq' => ?_) p hprest
      rw [getSlot_setSlot_ne]
      · exact hfree q' (List.mem_cons_of_mem p0 hq')
      · intro heq
        simp only [Prod.ext_iff, PeriodKey.p.injEq] at heq
        exact hp0notin (heq.2.2 ▸ hq')

theorem processDay_completes_builtin (s : FullSchedule) (cls : ClassName)
    (d : Day) (rot : List Subject) (hcls : cls ∈ CLASSES)
    (hrot : rot.Perm SUBJECTS) (hun : dayUntouched s cls d) :
    dayComplete (processDay CATALOG rot s cls d) cls d := by
  intro n hn
  unfold processDay
  exact periods_fold_completes d rot cls hcls hrot teachingPeriods (by decide)
    s 0 hun n hn

theorem days_fold_locality (cat : Catalog)
    (rot : ClassName → Day → List Subject) (cls : ClassName) :
    ∀ (ds : List Day) (s : FullSchedule) (c' : ClassName) (d' : Day)
      (k' : PeriodKey), (∀ dd ∈ ds, c' ≠ cls ∨ d' ≠ dd) →
      getSlot (ds.foldl
          (fun s day => processDay cat (rot cls day) s cls day) s) c' d' k' =
        getSlot s c' d' k'
  | [], _, _, _, _, _ => rfl
  | d0 :: rest, s, c', d', k', h => by
    rw [List.foldl_cons,
      days_fold_locality cat rot cls rest _ c' d' k'
        (fun dd hdd => h dd (List.mem_cons_of_mem d0 hdd))]
    exact processDay_locality cat (rot cls d0) s cls d0 c' d'
      (h d0 (List.mem_cons_self d0 rest)) k'

theorem days_fold_complete (rot : ClassName → Day → List Subject)
    (cls : ClassName) (hcls : cls ∈ CLASSES)
    (hrot : ∀ d, (rot cls d).Perm SUBJECTS) :
    ∀ (ds : List Day), ds.Nodup → ∀ s, (∀ d ∈ ds, dayUntouched s cls d) →
      ∀ d ∈ ds, dayComplete (ds.foldl
        (fun s day => processDay CATALOG (rot cls day) s cls day) s) cls d
  | [], _, _, _, d, hd => absurd hd (List.not_mem_nil d)
  | d0 :: rest, hnd, s, hun, d, hd => by
    obtain ⟨hd0notin, hndrest⟩ := List.nodup_cons.mp hnd
    rw [List.foldl_cons]
    rcases List.mem_cons.mp hd with rfl | hdrest
    · intro n hn
      rw [days_fold_locality CATALOG rot cls rest _ cls d (.p n)
        (fun dd hdd => Or.inr (fun he => hd0notin (he.symm ▸ hdd)))]
      exact processDay_completes_builtin s cls d (rot cls d) hcls (hrot d)
        (hun d (List.mem_cons_self d rest)) n hn
    · refine days_fold_complete rot cls hcls hrot rest hndrest _
        (fun dd hdd n hn => ?_) d hdrest
      rw [processDay_locality CATALOG (rot cls d0) s cls d0 cls dd
        (Or.inr (fun he => hd0notin (he ▸ hdd))) (.p n)]
      exact hun dd (List.mem_cons_of_mem d0 hdd) n hn

theorem classes_fold_locality (cat : Catalog)
    (rot : ClassName → Day → List Subject) (ds : List Day) :
    ∀ (cs : List ClassName) (s : FullSchedule) (c' : ClassName) (d' : Day)
      (k' : PeriodKey), (∀ c ∈ cs, c' ≠ c) →
      getSlot (cs.foldl (fun s cls => ds.foldl
          (fun s day => processDay cat (rot cls day) s cls day) s) s)
          c' d' k' =
        getSlot s c' d' k'
  | [], _, _, _, _, _ => rfl
  | c0 :: rest, s, c', d', k', h => by
    rw [List.foldl_cons,
      classes_fold_locality cat rot ds rest _ c' d' k'
        (fun cc hcc => h cc (List.mem_cons_of_mem c0 hcc))]
    exact days_fold_locality cat rot c0 ds s c' d' k'
      (fun dd hdd => Or.inl (h c0 (List.mem_cons_self c0 rest)))

theorem classes_fold_complete (rot : ClassName → Day → List Subject)
    (hrot : ∀ c d, (rot c d).Perm SUBJECTS) :
    ∀ (cs : List ClassName), (∀ c ∈ cs, c ∈ CLASSES) → cs.Nodup → ∀ s,
      (∀ c ∈ cs, ∀ d ∈ DAYS, dayUntouched s c d) →
      ∀ c ∈ cs, ∀ d ∈ DAYS,
        dayComplete (cs.foldl (fun s cls => DAYS.foldl
          (fun s day => processDay CATALOG (rot cls day) s cls day) s) s) c d
  | [], _, _, _, _, c, hc => absurd hc (List.not_mem_nil c)
  | c0 :: rest, hmem, hnd, s, hun, c, hc => by
    obtain ⟨hc0notin, hndrest⟩ := List.nodup_cons.mp hnd
    rw [List.foldl_cons]
    rcases List.mem_cons.mp hc with rfl | hcrest
    · intro d hd n hn
      rw [classes_fold_locality CATALOG rot DAYS rest _ c d (.p n)
        (fun cc hcc he => hc0notin (he.symm ▸ hcc))]
      exact days_fold_complete rot c (hmem c (List.mem_cons_self c rest))
        (fun d' => hrot c d') DAYS (by decide) s
        (fun dd hdd => hun c (List.mem_cons_self c rest) dd hdd) d hd n hn
    · refine classes_fold_complete rot hrot rest
        (fun cc hcc => hmem cc (List.mem_cons_of_mem c0 hcc)) hndrest _
        (fun cc hcc d hd n hn => ?_) c hcrest
      rw [days_fold_locality CATALOG rot c0 DAYS s cc d (.p n)
        (fun dd hdd => Or.inl (fun he => hc0notin (he ▸ hcc)))]
      exact hun cc (List.mem_cons_of_mem c0 hcc) d hd n hn

theorem build_complete_builtin (rot : ClassName → Day → List Subject)
    (hrot : ∀ c d, (rot c d).Perm SUBJECTS) :
    ∀ c ∈ CLASSES, ∀ d ∈ DAYS, dayComplete (buildScheduleC CATALOG rot) c d := by
  intro c hc d hd
  have hinit : ∀ c' ∈ CLASSES, ∀ d' ∈ DAYS,
      dayUntouched (initSchedule CATALOG) c' d' := by
    intro c' hc' d' hd' n hn
    exact getSlot_initSchedule CATALOG hc' hd' (teachingPeriod_key_mem hn)
  exact classes_fold_complete rot hrot CLASSES (fun c' h' => h') (by decide)
    (initSchedule CATALOG) hinit c hc d hd

/-- C10 (implicit — no Free slots under the built-in catalog).  With the
hard-coded three classes, five days, and six subjects naming ten pairwise
distinct teachers, every teaching slot of every class on every day holds an
assignment, for every outcome of the random shuffles: the Free fallback
branch is unreachable, because when a class's slot is decided at most the
two other classes can have booked teachers at that (day, period), while
blocking all six subjects would require at least the three distinct
teachers of Art, PE, and Math to be booked. -/
theorem no_free_slots_builtin (cmp : ClassName → Day → Subject → Subject → Bool)
    (c : ClassName) (d : Day) (n : Nat) (hc : c ∈ CLASSES) (hd : d ∈ DAYS)
    (hn : n ∈ teachingPeriods) :
    ∃ a t, getSlot (buildSchedule cmp) c d (.p n) = some (.slot a t) :=
  build_complete_builtin (rotationFor cmp) (rotationFor_perm cmp) c hc d hd n hn

/-- Witness for C10 at a concrete class, day and period. -/
theorem no_free_slots_builtin_witness :
    ∃ a t, getSlot (buildSchedule (fun _ _ _ _ => true)) "Grade 10-B" "Friday"
      (.p 6) = some (.slot a t) :=
  no_free_slots_builtin (fun _ _ _ _ => true) "Grade 10-B" "Friday" 6
    (by decide) (by decide) (by decide)

end SchedulerV3
